import Mathlib

/-!
Verification of the WalletConnect client core (sequence lifecycle engine,
relay subscriber, JSON-RPC history, storage keys) against its specification.
The definitions below are a shallow embedding of the TypeScript source:
the `Session` controller methods come from `packages/types/src/storage.ts`
(the file that holds the Session class in this corpus), the storage key
computation from `packages/client/src/controllers/storage.ts`.  Components
whose implementation files are absent from the corpus (the generic `Store`,
the relayer `Subscriber`, `JsonRpcHistory`, the engine glue and the
`mergeArrays` utility) are modelled from the specification and marked as
such in their doc comments.
-/

/-- Error kinds thrown by the client core, mirroring the `ERROR` table of
`@walletconnect/utils` as used by the embedded source functions. -/
inductive ErrorKind where
  | invalidExtendRequest
  | missingOrInvalid
  | unsupportedSignal
  | unauthorizedTargetChain
  | unauthorizedJsonRpcMethod
  | unauthorizedNotificationType
  | notFound
  | invalidStorageKeyName
  | recordNotFound
  | alreadyResolved
  | duplicateId
  deriving DecidableEq, Repr

/-- The spec's "Unauthorized-target" error class: an authorization failure
of a request/notify target (chain, JSON-RPC method or notification type). -/
def ErrorKind.isUnauthorizedTarget : ErrorKind → Bool
  | .unauthorizedTargetChain => true
  | .unauthorizedJsonRpcMethod => true
  | .unauthorizedNotificationType => true
  | _ => false

/-- `CryptoTypes.Participant` from `types/src/crypto.ts`. -/
structure Participant where
  publicKey : String
  deriving DecidableEq, Repr

/-- `jsonrpc` axis of permissions: allow-listed JSON-RPC methods. -/
structure JsonRpcPermissions where
  methods : List String
  deriving DecidableEq, Repr

/-- `notifications` axis of permissions: allow-listed notification types. -/
structure NotificationPermissions where
  types : List String
  deriving DecidableEq, Repr

/-- `blockchain` axis of permissions: allow-listed chains. -/
structure BlockchainPermissions where
  chains : List String
  deriving DecidableEq, Repr

/-- `SessionTypes.SettledPermissions`: the three capability axes plus the
controller participant. -/
structure SettledPermissions where
  jsonrpc : JsonRpcPermissions
  notifications : NotificationPermissions
  blockchain : BlockchainPermissions
  controller : Participant
  deriving DecidableEq, Repr

/-- `Partial<SettledPermissions>` as carried by an upgrade: every axis is
optional (`upgrade.permissions.jsonrpc?.methods || []` in the source). -/
structure UpgradePermissions where
  jsonrpc : Option JsonRpcPermissions
  notifications : Option NotificationPermissions
  blockchain : Option BlockchainPermissions
  controller : Option Participant
  deriving DecidableEq, Repr

/-- `SessionTypes.Upgrade`. -/
structure Upgrade where
  permissions : UpgradePermissions
  deriving DecidableEq, Repr

/-- `SessionTypes.State`: the settled session state (account list). -/
structure SessionState where
  accounts : List String
  deriving DecidableEq, Repr

/-- `Partial<State>` inside an update: the account list may be absent. -/
structure UpdateState where
  accounts : Option (List String)
  deriving DecidableEq, Repr

/-- `SessionTypes.Update`; `state` is optional to mirror the source's
defensive `update.state?.accounts` access. -/
structure Update where
  state : Option UpdateState
  deriving DecidableEq, Repr

/-- `SessionTypes.Extension`: the new expiry carried by an extend call. -/
structure Extension where
  expiry : Nat
  deriving DecidableEq, Repr

/-- `SessionTypes.Settled`: a settled session record. -/
structure Settled where
  topic : String
  sharedKey : String
  self : Participant
  peer : Participant
  permissions : SettledPermissions
  expiry : Nat
  state : SessionState
  deriving DecidableEq, Repr

/-- Pending status: `proposed` or `responded`. -/
inductive PendingStatus where
  | proposed
  | responded
  deriving DecidableEq, Repr

/-- `SessionTypes.Pending` (shape shared by the proposed/responded
variants; only the discriminant and topic matter for the claims here). -/
structure Pending where
  status : PendingStatus
  topic : String
  deriving DecidableEq, Repr

/-- Modelled from the spec: the `mergeArrays` utility of
`@walletconnect/utils` (its file is absent from the corpus); the spec
describes the merge as "set union, de-duplicated", keeping the first
occurrence of each element. -/
def mergeArrays (a b : List String) : List String :=
  (a ++ b).foldl (fun acc x => if x ∈ acc then acc else acc ++ [x]) []

/-- Modelled from the spec: the generic `Store` of pending/settled records
(`controllers/store.ts` is absent from the corpus).  The spec says `get`
fails with `NotFound` if the key is absent; records are kept in an ordered
collection keyed by topic. -/
structure Store (α : Type) where
  sequences : List (String × α)

/-- Modelled from the spec: `Store.get(key)` fails with `NotFound` if
absent, otherwise returns the record. -/
def Store.get {α : Type} (s : Store α) (topic : String) : Except ErrorKind α :=
  match s.sequences.find? (fun p => p.1 == topic) with
  | some p => .ok p.2
  | none => .error .notFound

/-- Modelled from the spec: `Store.update(key, partial)` merges fields into
the existing record and fails with `NotFound` if the key is absent. -/
def Store.update {α : Type} (s : Store α) (topic : String) (f : α → α) :
    Except ErrorKind (Store α) :=
  match s.sequences.find? (fun p => p.1 == topic) with
  | some _ => .ok ⟨s.sequences.map (fun p => if p.1 == topic then (p.1, f p.2) else p)⟩
  | none => .error .notFound

/-- The `Session` controller's stores: `pending` and `settled`
(`storage.ts`, Session constructor). -/
structure Session where
  pending : Store Pending
  settled : Store Settled

/-- `Session.get(topic)` from the source: `return this.settled.get(topic)`. -/
def Session.get (sess : Session) (topic : String) : Except ErrorKind Settled :=
  sess.settled.get topic

/-- `Session.mergeUpdate` from the source: reads the settled record and
produces `{ accounts: update.state?.accounts || settled.state.accounts }`
(an array value, even empty, is truthy in JavaScript, so a present account
list always wins). -/
def Session.mergeUpdate (sess : Session) (topic : String) (update : Update) :
    Except ErrorKind SessionState := do
  let settled ← sess.settled.get topic
  pure { accounts := ((update.state.bind UpdateState.accounts).getD settled.state.accounts) }

/-- `Session.mergeUpgrade` from the source: merges each capability axis of
the upgrade into the settled permissions with `mergeArrays`, and carries
over the settled record's controller. -/
def Session.mergeUpgrade (sess : Session) (topic : String) (upgrade : Upgrade) :
    Except ErrorKind SettledPermissions := do
  let settled ← sess.settled.get topic
  pure
    { jsonrpc :=
        { methods := mergeArrays settled.permissions.jsonrpc.methods
            ((upgrade.permissions.jsonrpc.map JsonRpcPermissions.methods).getD []) }
      notifications :=
        { types := mergeArrays settled.permissions.notifications.types
            ((upgrade.permissions.notifications.map NotificationPermissions.types).getD []) }
      blockchain :=
        { chains := mergeArrays settled.permissions.blockchain.chains
            ((upgrade.permissions.blockchain.map BlockchainPermissions.chains).getD []) }
      controller := settled.permissions.controller }

/-- `Session.mergeExtension` from the source: throws `INVALID_EXTEND_REQUEST`
when `extension.expiry <= settled.expiry`, otherwise returns the extension. -/
def Session.mergeExtension (sess : Session) (topic : String) (extension : Extension) :
    Except ErrorKind Extension := do
  let settled ← sess.settled.get topic
  if extension.expiry ≤ settled.expiry then
    .error .invalidExtendRequest
  else
    pure extension

/-- Modelled from the spec: the SequenceEngine's `extend` operation
(`controllers/engine.ts` is absent from the corpus); the spec says a
successful extension "updates the Expirer registration and the settled
record", so the merged expiry is written into the settled store. -/
def Engine.extend (sess : Session) (topic : String) (newExpiry : Nat) :
    Except ErrorKind Session := do
  let extension ← Session.mergeExtension sess topic { expiry := newExpiry }
  let settled ← sess.settled.update topic (fun r => { r with expiry := extension.expiry })
  pure { sess with settled := settled }

/-- `RequestArguments` of a JSON-RPC request (method plus opaque params). -/
structure RequestArguments where
  method : String
  params : String
  deriving DecidableEq, Repr

/-- `SessionTypes.RequestParams`: topic, request arguments and an optional
chain id. -/
structure RequestParams where
  topic : String
  request : RequestArguments
  chainId : Option String
  deriving DecidableEq, Repr

/-- A chain id guards the authorization check only when it is JavaScript
truthy, i.e. defined and non-empty (`if (chainId && ...)` in the source). -/
def chainIdTruthy : Option String → Bool
  | none => false
  | some c => c ≠ ""

/-- `Session.validateRequest` from the source: fails `MISSING_OR_INVALID`
when params are undefined; otherwise reads the settled record and fails
`UNAUTHORIZED_TARGET_CHAIN` when a (truthy) chain id is not in the settled
blockchain allow-list. -/
def Session.validateRequest (sess : Session) (params : Option RequestParams) :
    Except ErrorKind Unit :=
  match params with
  | none => .error .missingOrInvalid
  | some p => do
    let settled ← sess.settled.get p.topic
    match p.chainId with
    | some chainId =>
      if chainId ≠ "" ∧ chainId ∉ settled.permissions.blockchain.chains then
        .error .unauthorizedTargetChain
      else
        pure ()
    | none => pure ()

/-- A payload handed to the Publisher after successful validation. -/
structure PublishedPayload where
  topic : String
  method : String
  deriving DecidableEq, Repr

/-- Modelled from the spec: the SequenceEngine's `request` operation
(`controllers/engine.ts` is absent from the corpus); the spec says the
engine "validates the settled topic's permissions authorize the requested
method ... before forwarding to Publisher; fails with `UnauthorizedTarget`
otherwise".  Runs the source's `validateRequest` (chain authorization),
then checks the method against the settled JSON-RPC allow-list. -/
def Engine.request (sess : Session) (params : RequestParams) :
    Except ErrorKind PublishedPayload := do
  Session.validateRequest sess (some params)
  let settled ← sess.settled.get params.topic
  if params.request.method ∈ settled.permissions.jsonrpc.methods then
    pure { topic := params.topic, method := params.request.method }
  else
    .error .unauthorizedJsonRpcMethod

/-- `SessionTypes.NotificationEvent`: a notification with its type. -/
structure NotificationEvent where
  topic : String
  ntype : String
  data : String
  deriving DecidableEq, Repr

/-- Modelled from the spec: the SequenceEngine's `notify` operation
(`controllers/engine.ts` is absent from the corpus); the spec says notify
validates the settled topic's permissions authorize the notification type
before forwarding to Publisher and fails with an unauthorized-target error
otherwise. -/
def Engine.notify (sess : Session) (params : NotificationEvent) :
    Except ErrorKind PublishedPayload := do
  let settled ← sess.settled.get params.topic
  if params.ntype ∈ settled.permissions.notifications.types then
    pure { topic := params.topic, method := params.ntype }
  else
    .error .unauthorizedNotificationType

/-- `SignalTypes.Pairing`-shaped signal of a session proposal. -/
structure Signal where
  method : String
  pairingTopic : String
  deriving DecidableEq, Repr

/-- `SessionTypes.ProposeParams` as far as validation inspects them. -/
structure ProposeParams where
  signal : Signal
  deriving DecidableEq, Repr

/-- `SessionTypes.RespondParams` as far as validation inspects them. -/
structure RespondParams where
  approved : Bool
  deriving DecidableEq, Repr

/-- Modelled from the spec: the `SESSION_SIGNAL_METHOD_PAIRING` constant
(the constants file is absent from the corpus) — session proposals must
signal via an existing pairing. -/
def SESSION_SIGNAL_METHOD_PAIRING : String := "pairing"

/-- `Session.validateRespond` from the source, parameterized by the
`validateSessionRespondParams` schema validator of `@walletconnect/utils`
(absent from the corpus): fails `MISSING_OR_INVALID` when params are
undefined, propagates the validator's invalid result (a missing-or-invalid
error per the spec) otherwise. -/
def Session.validateRespond (isValid : RespondParams → Bool)
    (params : Option RespondParams) : Except ErrorKind Unit :=
  match params with
  | none => .error .missingOrInvalid
  | some p =>
    if isValid p then pure () else .error .missingOrInvalid

/-- `Session.validatePropose` from the source, parameterized by the
`validateSessionProposeParams` schema validator of `@walletconnect/utils`
(absent from the corpus): fails `MISSING_OR_INVALID` when params are
undefined or the validator rejects them, then fails `UNSUPPORTED_SIGNAL`
when the signal method is not `SESSION_SIGNAL_METHOD_PAIRING`. -/
def Session.validatePropose (isValid : ProposeParams → Bool)
    (params : Option ProposeParams) : Except ErrorKind Unit :=
  match params with
  | none => .error .missingOrInvalid
  | some p =>
    if !(isValid p) then .error .missingOrInvalid
    else if p.signal.method ≠ SESSION_SIGNAL_METHOD_PAIRING then .error .unsupportedSignal
    else pure ()

/-- `StorageConfig` from `types/src/storage.ts`. -/
structure StorageConfig where
  protocol : String
  version : Nat
  context : String
  deriving DecidableEq, Repr

/-- `BaseStorage` from `controllers/storage.ts`: the storage version, the
key map (each record kind's valid key names, inner records flattened to
their value lists) and the config. -/
structure BaseStorage where
  version : String
  keyMap : List (String × List String)
  config : StorageConfig
  deriving DecidableEq, Repr

/-- `BaseStorage.prefix` getter from the source:
`protocol@version:context:storageVersion` (renamed, `prefix` is reserved). -/
def BaseStorage.prefixValue (s : BaseStorage) : String :=
  s.config.protocol ++ "@" ++ toString s.config.version ++ ":" ++
    s.config.context ++ ":" ++ s.version

/-- `toLowerCase` applied characterwise (equivalent to `String.toLower`,
written over the character list so that it evaluates by reduction). -/
def toLowerStr (s : String) : String :=
  ⟨s.data.map Char.toLower⟩

/-- `BaseStorage.isValidStorageKeyName` from the source: the lower-cased
name must appear among the flattened values of the key map. -/
def BaseStorage.isValidStorageKeyName (s : BaseStorage) (name : String) : Bool :=
  (s.keyMap.map Prod.snd).flatten.contains (toLowerStr name)

/-- `BaseStorage.getStorageKey` from the source, parameterized by the
`formatStorageKeyName` utility of `@walletconnect/utils` (absent from the
corpus): formats the record-kind context into a key name, rejects invalid
names with `INVALID_STORAGE_KEY_NAME`, and returns `prefix + "//" + name`. -/
def BaseStorage.getStorageKey (s : BaseStorage) (fmt : String → String)
    (context : String) : Except ErrorKind String :=
  let name := fmt context
  if s.isValidStorageKeyName name then
    .ok (s.prefixValue ++ "//" ++ name)
  else
    .error .invalidStorageKeyName

/-- Modelled from the spec: the relayer `Subscriber`'s local state
(`controllers/subscriber.ts` is absent from the corpus; only its test in
`client/test/relayer.spec.ts` is).  It maintains `ids`, `topics` and the
inverse index `topicMap`, plus the persisted topic list (kept independently
of the live id list) and a counter generating fresh subscription ids. -/
structure Subscriber where
  nextId : Nat
  ids : List Nat
  topics : List String
  topicMap : List (String × List Nat)
  cached : List String
  deriving DecidableEq, Repr

/-- The empty subscriber state of a freshly initialized client. -/
def Subscriber.initial : Subscriber :=
  { nextId := 0, ids := [], topics := [], topicMap := [], cached := [] }

/-- `topicMap.get(topic)`: the ordered ids subscribed to a topic (the test
observes `[]` for an absent topic). -/
def Subscriber.tmGet (m : List (String × List Nat)) (topic : String) : List Nat :=
  ((m.find? (fun p => p.1 == topic)).map Prod.snd).getD []

/-- Upsert of a topic's id list in the `topicMap` index. -/
def Subscriber.tmSet (m : List (String × List Nat)) (topic : String)
    (v : List Nat) : List (String × List Nat) :=
  if (m.find? (fun p => p.1 == topic)).isSome then
    m.map (fun p => if p.1 == topic then (p.1, v) else p)
  else
    m ++ [(topic, v)]

/-- Modelled from the spec: `subscribe(topic)` assigns a fresh id, updates
all three indices (`ids`, `topics`, `topicMap`) and persists the topic;
duplicate subscribes are idempotent at the topic level but each receives
its own id. -/
def Subscriber.subscribe (s : Subscriber) (topic : String) : Nat × Subscriber :=
  let id := s.nextId
  (id,
    { nextId := s.nextId + 1
      ids := s.ids ++ [id]
      topics := if topic ∈ s.topics then s.topics else s.topics ++ [topic]
      topicMap := Subscriber.tmSet s.topicMap topic (Subscriber.tmGet s.topicMap topic ++ [id])
      cached := if topic ∈ s.cached then s.cached else s.cached ++ [topic] })

/-- Modelled from the spec: on transport disconnect all local subscription
state is cleared (`ids`, `topics`, `topicMap` become empty) while the
persisted topic list survives; the `disabled` event fires. -/
def Subscriber.onDisconnect (s : Subscriber) : Subscriber :=
  { s with ids := [], topics := [], topicMap := [] }

/-- Modelled from the spec: on reconnect every previously-known (persisted)
topic is re-subscribed with a fresh id; the returned state is the one
observed when the `enabled` event fires, after the full batch completes. -/
def Subscriber.onReconnect (s : Subscriber) : Subscriber :=
  s.cached.foldl (fun st t => (Subscriber.subscribe st t).2) s

/-- A JSON-RPC history record (`types/src/history.ts` shape):
request by id with an optional attached response. -/
structure JsonRpcRecord where
  id : Nat
  topic : String
  method : String
  request : String
  response : Option String
  deriving DecidableEq, Repr

/-- A JSON-RPC response, correlated to its request by id. -/
structure JsonRpcResponse where
  id : Nat
  result : String
  deriving DecidableEq, Repr

/-- Modelled from the spec: the `JsonRpcHistory` ledger
(`controllers/history.ts` is absent from the corpus): records keyed by
numeric id, at most one record per id. -/
structure JsonRpcHistory where
  records : List JsonRpcRecord

/-- Look up a history record by id. -/
def JsonRpcHistory.lookup (h : JsonRpcHistory) (id : Nat) : Option JsonRpcRecord :=
  h.records.find? (fun q => q.id == id)

/-- Modelled from the spec: `set(topic, request)` registers a new outgoing
request and fails with `DuplicateId` if the id already has a record. -/
def JsonRpcHistory.set (h : JsonRpcHistory) (topic : String) (id : Nat)
    (method : String) (request : String) : Except ErrorKind JsonRpcHistory :=
  match h.lookup id with
  | some _ => .error .duplicateId
  | none =>
    .ok ⟨h.records ++ [{ id := id, topic := topic, method := method,
                         request := request, response := none }]⟩

/-- Modelled from the spec: `resolve(response)` looks up the record by the
response id; fails with `RecordNotFound` if no such id is pending, with
`AlreadyResolved` if the id already has a response attached; on success
attaches the response and returns the singleton batch of emitted
"response" events (exactly one per successful resolve). -/
def JsonRpcHistory.resolve (h : JsonRpcHistory) (response : JsonRpcResponse) :
    Except ErrorKind (JsonRpcHistory × List Nat) :=
  match h.lookup response.id with
  | none => .error .recordNotFound
  | some r =>
    match r.response with
    | some _ => .error .alreadyResolved
    | none =>
      .ok (⟨h.records.map (fun q =>
              if q.id == response.id then { q with response := some response.result } else q)⟩,
           [response.id])

/-! ### Helper lemmas -/

theorem mem_foldl_dedup (l : List String) :
    ∀ (acc : List String) (x : String),
      (x ∈ l.foldl (fun acc x => if x ∈ acc then acc else acc ++ [x]) acc)
        ↔ x ∈ acc ∨ x ∈ l := by
  induction l with
  | nil => simp
  | cons y l ih =>
    intro acc x
    simp only [List.foldl_cons, ih, List.mem_cons]
    by_cases hy : y ∈ acc
    · simp only [if_pos hy]
      constructor
      · rintro (hx | hx)
        · exact Or.inl hx
        · exact Or.inr (Or.inr hx)
      · rintro (hx | rfl | hx)
        · exact Or.inl hx
        · exact Or.inl hy
        · exact Or.inr hx
    · simp only [if_neg hy, List.mem_append, List.mem_singleton]
      tauto

theorem nodup_foldl_dedup (l : List String) :
    ∀ acc : List String, acc.Nodup →
      (l.foldl (fun acc x => if x ∈ acc then acc else acc ++ [x]) acc).Nodup := by
  induction l with
  | nil => intro acc h; simpa using h
  | cons y l ih =>
    intro acc h
    simp only [List.foldl_cons]
    by_cases hy : y ∈ acc
    · rw [if_pos hy]; exact ih acc h
    · rw [if_neg hy]
      refine ih (acc ++ [y]) ?_
      simp [List.nodup_append, h, hy]

theorem foldl_dedup_eq_append (a : List String) :
    ∀ acc : List String, (acc ++ a).Nodup →
      a.foldl (fun acc x => if x ∈ acc then acc else acc ++ [x]) acc = acc ++ a := by
  induction a with
  | nil => intro acc _; simp
  | cons y l ih =>
    intro acc h
    have hy : y ∉ acc := by
      rw [List.nodup_append] at h
      intro hmem
      exact h.2.2 hmem (List.mem_cons_self y l)
    have h' : ((acc ++ [y]) ++ l).Nodup := by
      rw [List.append_assoc, List.singleton_append]; exact h
    simp only [List.foldl_cons, if_neg hy]
    rw [ih (acc ++ [y]) h', List.append_assoc, List.singleton_append]

theorem foldl_dedup_absorb (b : List String) :
    ∀ acc : List String, (∀ x ∈ b, x ∈ acc) →
      b.foldl (fun acc x => if x ∈ acc then acc else acc ++ [x]) acc = acc := by
  induction b with
  | nil => intro acc _; rfl
  | cons y l ih =>
    intro acc h
    have hy : y ∈ acc := h y (List.mem_cons_self y l)
    simp only [List.foldl_cons, if_pos hy]
    exact ih acc (fun x hx => h x (List.mem_cons_of_mem y hx))

theorem mem_mergeArrays (a b : List String) (x : String) :
    x ∈ mergeArrays a b ↔ x ∈ a ∨ x ∈ b := by
  unfold mergeArrays
  rw [mem_foldl_dedup]
  simp

theorem nodup_mergeArrays (a b : List String) : (mergeArrays a b).Nodup :=
  nodup_foldl_dedup _ _ List.nodup_nil

theorem mergeArrays_eq_left (a b : List String) (ha : a.Nodup)
    (hb : ∀ x ∈ b, x ∈ a) : mergeArrays a b = a := by
  unfold mergeArrays
  rw [List.foldl_append, foldl_dedup_eq_append a [] (by simpa using ha)]
  simp only [List.nil_append]
  exact foldl_dedup_absorb b a hb

theorem find?_keyMap {α : Type} (l : List (String × α)) (topic : String) (f : α → α) :
    (l.map (fun q => if q.1 == topic then (q.1, f q.2) else q)).find?
        (fun q => q.1 == topic)
      = (l.find? (fun q => q.1 == topic)).map (fun q => (q.1, f q.2)) := by
  induction l with
  | nil => rfl
  | cons a l ih =>
    simp only [List.map_cons]
    by_cases h : (a.1 == topic) = true
    · rw [if_pos h]
      rw [List.find?_cons_of_pos (p := fun q : String × α => q.1 == topic)
          (a := (a.1, f a.2)) _ h,
        List.find?_cons_of_pos (p := fun q : String × α => q.1 == topic) (a := a) _ h]
      rfl
    · rw [if_neg h]
      rw [List.find?_cons_of_neg (p := fun q : String × α => q.1 == topic) _ h,
        List.find?_cons_of_neg (p := fun q : String × α => q.1 == topic) _ h, ih]

theorem find?_recMap (l : List JsonRpcRecord) (rid : Nat) (resp : String) :
    (l.map (fun q => if q.id == rid then { q with response := some resp } else q)).find?
        (fun q => q.id == rid)
      = (l.find? (fun q => q.id == rid)).map (fun q => { q with response := some resp }) := by
  induction l with
  | nil => rfl
  | cons a l ih =>
    simp only [List.map_cons]
    by_cases h : (a.id == rid) = true
    · rw [if_pos h]
      rw [List.find?_cons_of_pos (p := fun q : JsonRpcRecord => q.id == rid)
          (a := { a with response := some resp }) _ h,
        List.find?_cons_of_pos (p := fun q : JsonRpcRecord => q.id == rid) (a := a) _ h]
      rfl
    · rw [if_neg h]
      rw [List.find?_cons_of_neg (p := fun q : JsonRpcRecord => q.id == rid) _ h,
        List.find?_cons_of_neg (p := fun q : JsonRpcRecord => q.id == rid) _ h, ih]

theorem Store.get_update {α : Type} (s : Store α) (topic : String) (f : α → α) (v : α)
    (h : s.get topic = .ok v) :
    ∃ s', s.update topic f = .ok s' ∧ s'.get topic = .ok (f v) := by
  unfold Store.get at h
  split at h
  case h_2 => exact absurd h (by simp)
  case h_1 p heq =>
    have hv : p.2 = v := by simpa using h
    refine ⟨⟨s.sequences.map (fun q => if q.1 == topic then (q.1, f q.2) else q)⟩, ?_, ?_⟩
    · unfold Store.update
      rw [heq]
    · unfold Store.get
      rw [find?_keyMap, heq]
      simp [hv]

theorem pure_eq_ok {ε α : Type} (v : α) : (pure v : Except ε α) = Except.ok v := rfl

theorem bind_ok_eq {ε α β : Type} (v : α) (k : α → Except ε β) :
    (Except.ok v >>= k) = k v := rfl

theorem bind_error_eq {ε α β : Type} (e : ε) (k : α → Except ε β) :
    ((Except.error e : Except ε α) >>= k) = .error e := rfl

/-! ### Concrete fixtures used by the witnesses -/

/-- A concrete settled session record. -/
def wSettled : Settled :=
  { topic := "t", sharedKey := "k", self := ⟨"pa"⟩, peer := ⟨"pb"⟩,
    permissions :=
      { jsonrpc := ⟨["m1", "m2"]⟩, notifications := ⟨["n1"]⟩,
        blockchain := ⟨["c1"]⟩, controller := ⟨"pb"⟩ },
    expiry := 5, state := ⟨["acct1"]⟩ }

/-- A concrete session store state: one pending topic, one settled topic. -/
def wSession : Session :=
  { pending := ⟨[("p", { status := .proposed, topic := "p" })]⟩,
    settled := ⟨[("t", wSettled)]⟩ }

/-- A concrete upgrade whose method list is already included in `wSettled`. -/
def wUpgrade : Upgrade :=
  { permissions :=
      { jsonrpc := some ⟨["m1"]⟩, notifications := none, blockchain := none,
        controller := some ⟨"attacker"⟩ } }

/-! ### Claim theorems -/

/-- C9: for every settled topic and every upgrade, the permissions produced by
`Session.mergeUpgrade` carry the controller participant of the existing settled
record unchanged — no upgrade input can alter `permissions.controller`. -/
theorem mergeUpgrade_preserves_controller (sess : Session) (topic : String)
    (r : Settled) (upgrade : Upgrade) (hg : sess.settled.get topic = .ok r) :
    ∃ p, Session.mergeUpgrade sess topic upgrade = .ok p
      ∧ p.controller = r.permissions.controller := by
  unfold Session.mergeUpgrade
  rw [hg, bind_ok_eq]
  exact ⟨_, rfl, rfl⟩

/-- Witness for C9: the upgrade `wUpgrade` carries a different controller, yet
the merged permissions keep `wSettled`'s controller. -/
theorem mergeUpgrade_preserves_controller_witness :
    ∃ p, Session.mergeUpgrade wSession "t" wUpgrade = .ok p
      ∧ p.controller = wSettled.permissions.controller :=
  mergeUpgrade_preserves_controller wSession "t" wSettled wUpgrade (by rfl)

/-- C2: upgrade merges the new permission sets into the existing settled
permissions by de-duplicated set union per capability axis (JSON-RPC methods,
notification types, blockchain chains), and the merge is idempotent: upgrading
with permission lists already included in the (duplicate-free) settled set
leaves the settled permission set unchanged. -/
theorem mergeUpgrade_union_and_idempotent (sess : Session) (topic : String)
    (r : Settled) (u : Upgrade) (hg : sess.settled.get topic = .ok r) :
    ∃ p, Session.mergeUpgrade sess topic u = .ok p
      ∧ (∀ x, x ∈ p.jsonrpc.methods ↔
            x ∈ r.permissions.jsonrpc.methods
            ∨ x ∈ (u.permissions.jsonrpc.map JsonRpcPermissions.methods).getD [])
      ∧ (∀ x, x ∈ p.notifications.types ↔
            x ∈ r.permissions.notifications.types
            ∨ x ∈ (u.permissions.notifications.map NotificationPermissions.types).getD [])
      ∧ (∀ x, x ∈ p.blockchain.chains ↔
            x ∈ r.permissions.blockchain.chains
            ∨ x ∈ (u.permissions.blockchain.map BlockchainPermissions.chains).getD [])
      ∧ p.jsonrpc.methods.Nodup ∧ p.notifications.types.Nodup ∧ p.blockchain.chains.Nodup
      ∧ (r.permissions.jsonrpc.methods.Nodup →
          (∀ x ∈ (u.permissions.jsonrpc.map JsonRpcPermissions.methods).getD [],
              x ∈ r.permissions.jsonrpc.methods) →
          p.jsonrpc.methods = r.permissions.jsonrpc.methods)
      ∧ (r.permissions.notifications.types.Nodup →
          (∀ x ∈ (u.permissions.notifications.map NotificationPermissions.types).getD [],
              x ∈ r.permissions.notifications.types) →
          p.notifications.types = r.permissions.notifications.types)
      ∧ (r.permissions.blockchain.chains.Nodup →
          (∀ x ∈ (u.permissions.blockchain.map BlockchainPermissions.chains).getD [],
              x ∈ r.permissions.blockchain.chains) →
          p.blockchain.chains = r.permissions.blockchain.chains) := by
  unfold Session.mergeUpgrade
  rw [hg, bind_ok_eq]
  refine ⟨_, rfl, ?_, ?_, ?_, ?_, ?_, ?_, ?_, ?_, ?_⟩
  · exact fun x => mem_mergeArrays _ _ x
  · exact fun x => mem_mergeArrays _ _ x
  · exact fun x => mem_mergeArrays _ _ x
  · exact nodup_mergeArrays _ _
  · exact nodup_mergeArrays _ _
  · exact nodup_mergeArrays _ _
  · exact fun hnd hsub => mergeArrays_eq_left _ _ hnd hsub
  · exact fun hnd hsub => mergeArrays_eq_left _ _ hnd hsub
  · exact fun hnd hsub => mergeArrays_eq_left _ _ hnd hsub

/-- Witness for C2 at the concrete store `wSession` and upgrade `wUpgrade`. -/
theorem mergeUpgrade_union_and_idempotent_witness :
    ∃ p, Session.mergeUpgrade wSession "t" wUpgrade = .ok p
      ∧ (∀ x, x ∈ p.jsonrpc.methods ↔
            x ∈ wSettled.permissions.jsonrpc.methods
            ∨ x ∈ (wUpgrade.permissions.jsonrpc.map JsonRpcPermissions.methods).getD [])
      ∧ (∀ x, x ∈ p.notifications.types ↔
            x ∈ wSettled.permissions.notifications.types
            ∨ x ∈ (wUpgrade.permissions.notifications.map NotificationPermissions.types).getD [])
      ∧ (∀ x, x ∈ p.blockchain.chains ↔
            x ∈ wSettled.permissions.blockchain.chains
            ∨ x ∈ (wUpgrade.permissions.blockchain.map BlockchainPermissions.chains).getD [])
      ∧ p.jsonrpc.methods.Nodup ∧ p.notifications.types.Nodup ∧ p.blockchain.chains.Nodup
      ∧ (wSettled.permissions.jsonrpc.methods.Nodup →
          (∀ x ∈ (wUpgrade.permissions.jsonrpc.map JsonRpcPermissions.methods).getD [],
              x ∈ wSettled.permissions.jsonrpc.methods) →
          p.jsonrpc.methods = wSettled.permissions.jsonrpc.methods)
      ∧ (wSettled.permissions.notifications.types.Nodup →
          (∀ x ∈ (wUpgrade.permissions.notifications.map NotificationPermissions.types).getD [],
              x ∈ wSettled.permissions.notifications.types) →
          p.notifications.types = wSettled.permissions.notifications.types)
      ∧ (wSettled.permissions.blockchain.chains.Nodup →
          (∀ x ∈ (wUpgrade.permissions.blockchain.map BlockchainPermissions.chains).getD [],
              x ∈ wSettled.permissions.blockchain.chains) →
          p.blockchain.chains = wSettled.permissions.blockchain.chains) :=
  mergeUpgrade_union_and_idempotent wSession "t" wSettled wUpgrade (by rfl)

/-- C6: `update(topic, state)` merges the partial state into the settled
record's state with last-write-wins per field: the only field of a session
state is the account list, and `Session.mergeUpdate` replaces it whenever the
update carries one (even an empty list, which is truthy in JavaScript) and
keeps the settled value whenever the update omits it. -/
theorem mergeUpdate_last_write_wins (sess : Session) (topic : String) (r : Settled)
    (hg : sess.settled.get topic = .ok r) :
    (∀ a : List String,
      Session.mergeUpdate sess topic { state := some { accounts := some a } }
        = .ok { accounts := a })
    ∧ Session.mergeUpdate sess topic { state := some { accounts := none } }
        = .ok { accounts := r.state.accounts }
    ∧ Session.mergeUpdate sess topic { state := none }
        = .ok { accounts := r.state.accounts } := by
  unfold Session.mergeUpdate
  rw [hg]
  refine ⟨fun a => ?_, ?_, ?_⟩ <;> rw [bind_ok_eq] <;> rfl

/-- Witness for C6 at the concrete store `wSession`. -/
theorem mergeUpdate_last_write_wins_witness :
    (∀ a : List String,
      Session.mergeUpdate wSession "t" { state := some { accounts := some a } }
        = .ok { accounts := a })
    ∧ Session.mergeUpdate wSession "t" { state := some { accounts := none } }
        = .ok { accounts := wSettled.state.accounts }
    ∧ Session.mergeUpdate wSession "t" { state := none }
        = .ok { accounts := wSettled.state.accounts } :=
  mergeUpdate_last_write_wins wSession "t" wSettled (by rfl)

/-- C10: `Session.get(topic)` consults only the settled store — for a topic
that has a pending record but no settled record, it fails with the store's
not-found error, so pending sequences are never observable through `get`. -/
theorem session_get_ignores_pending (sess : Session) (topic : String) (pend : Pending)
    (hp : sess.pending.get topic = .ok pend)
    (hs : sess.settled.sequences.find? (fun p => p.1 == topic) = none) :
    Session.get sess topic = .error .notFound := by
  unfold Session.get Store.get
  rw [hs]

/-- Witness for C10: topic `"p"` is pending but not settled in `wSession`,
and `Session.get` fails with `NotFound` on it. -/
theorem session_get_ignores_pending_witness :
    Session.get wSession "p" = .error .notFound :=
  session_get_ignores_pending wSession "p" { status := .proposed, topic := "p" }
    (by rfl) (by rfl)

/-- C8: every storage key produced by `BaseStorage.getStorageKey` has exactly
the form `protocol@version:context:storageVersion//recordKind` — the versioned
protocol-qualified prefix joined to the record-kind key name by a double
slash. -/
theorem getStorageKey_shape (s : BaseStorage) (fmt : String → String)
    (context key : String) (h : s.getStorageKey fmt context = .ok key) :
    key = s.config.protocol ++ "@" ++ toString s.config.version ++ ":" ++
      s.config.context ++ ":" ++ s.version ++ "//" ++ fmt context := by
  unfold BaseStorage.getStorageKey at h
  by_cases hv : s.isValidStorageKeyName (fmt context) = true
  · rw [if_pos hv] at h
    have hk : s.prefixValue ++ "//" ++ fmt context = key := by
      simpa using h
    rw [← hk]
    rfl
  · rw [if_neg hv] at h
    exact absurd h (by simp)

/-- Witness for C8 on a concrete storage configuration. -/
theorem getStorageKey_shape_witness :
    "wc@2:client:0.1//session" = "wc" ++ "@" ++ toString (2 : Nat) ++ ":" ++
      "client" ++ ":" ++ "0.1" ++ "//" ++ id "session" :=
  getStorageKey_shape ⟨"0.1", [("client", ["session"])], ⟨"wc", 2, "client"⟩⟩
    id "session" "wc@2:client:0.1//session" (by rfl)

/-- C1: for a settled topic, `extend(topic, newExpiry)` fails with
`InvalidExtendRequest` if and only if `newExpiry <= currentExpiry` of the
settled record; whenever `newExpiry > currentExpiry` it succeeds and the new
expiry is afterwards observable via `get(topic).expiry`. -/
theorem extend_strictly_increases_expiry (sess : Session) (topic : String)
    (r : Settled) (e : Nat) (hg : sess.settled.get topic = .ok r) :
    (Engine.extend sess topic e = .error .invalidExtendRequest ↔ e ≤ r.expiry)
    ∧ (r.expiry < e → ∃ s' r', Engine.extend sess topic e = .ok s'
        ∧ Session.get s' topic = .ok r' ∧ r'.expiry = e) := by
  have hmerge : Session.mergeExtension sess topic { expiry := e }
      = if e ≤ r.expiry then .error .invalidExtendRequest else .ok { expiry := e } := by
    unfold Session.mergeExtension
    rw [hg, bind_ok_eq]
    rfl
  by_cases hle : e ≤ r.expiry
  · have herr : Engine.extend sess topic e = .error .invalidExtendRequest := by
      simp only [Engine.extend, hmerge, if_pos hle, bind_error_eq]
    exact ⟨⟨fun _ => hle, fun _ => herr⟩, fun hlt => absurd hle (by omega)⟩
  · have hlt : r.expiry < e := by omega
    obtain ⟨s', hupd, hget⟩ :=
      Store.get_update sess.settled topic (fun q => { q with expiry := e }) r hg
    have hok : Engine.extend sess topic e = .ok { sess with settled := s' } := by
      simp only [Engine.extend, hmerge, if_neg hle, bind_ok_eq, hupd, pure_eq_ok]
    refine ⟨⟨fun h => ?_, fun h => absurd h hle⟩, fun _ => ⟨_, _, hok, hget, rfl⟩⟩
    rw [hok] at h
    exact absurd h (by simp)

/-- Witness for C1: `wSettled` expires at 5; extending `wSession`'s topic to
10 succeeds and to any value at most 5 fails. -/
theorem extend_strictly_increases_expiry_witness :
    (Engine.extend wSession "t" 10 = .error .invalidExtendRequest ↔ 10 ≤ wSettled.expiry)
    ∧ (wSettled.expiry < 10 → ∃ s' r', Engine.extend wSession "t" 10 = .ok s'
        ∧ Session.get s' "t" = .ok r' ∧ r'.expiry = 10) :=
  extend_strictly_increases_expiry wSession "t" wSettled 10 (by rfl)

/-- C3: on a settled topic, `request`/`notify` validate that the settled
permissions authorize the requested method / chain / notification type before
forwarding the payload to the Publisher, and fail with an unauthorized-target
error whenever the permissions do not authorize it. -/
theorem request_notify_require_authorization (sess : Session) (topic : String)
    (r : Settled) (req : RequestArguments) (cid : Option String) (nt nd : String)
    (hg : sess.settled.get topic = .ok r) :
    ((req.method ∈ r.permissions.jsonrpc.methods
        ∧ (∀ c, cid = some c → c ≠ "" → c ∈ r.permissions.blockchain.chains)) →
      Engine.request sess { topic := topic, request := req, chainId := cid }
        = .ok { topic := topic, method := req.method })
    ∧ (¬(req.method ∈ r.permissions.jsonrpc.methods
        ∧ (∀ c, cid = some c → c ≠ "" → c ∈ r.permissions.blockchain.chains)) →
      ∃ e, Engine.request sess { topic := topic, request := req, chainId := cid }
        = .error e ∧ e.isUnauthorizedTarget = true)
    ∧ (nt ∈ r.permissions.notifications.types →
      Engine.notify sess { topic := topic, ntype := nt, data := nd }
        = .ok { topic := topic, method := nt })
    ∧ (nt ∉ r.permissions.notifications.types →
      Engine.notify sess { topic := topic, ntype := nt, data := nd }
        = .error .unauthorizedNotificationType) := by
  have hval : Session.validateRequest sess
      (some { topic := topic, request := req, chainId := cid })
      = match cid with
        | some c => if c ≠ "" ∧ c ∉ r.permissions.blockchain.chains
            then .error .unauthorizedTargetChain else .ok ()
        | none => .ok () := by
    simp only [Session.validateRequest, hg, bind_ok_eq, pure_eq_ok]
  have hreqA : Session.validateRequest sess
        (some { topic := topic, request := req, chainId := cid }) = .ok () →
      Engine.request sess { topic := topic, request := req, chainId := cid }
        = if req.method ∈ r.permissions.jsonrpc.methods
          then .ok { topic := topic, method := req.method }
          else .error .unauthorizedJsonRpcMethod := by
    intro hva
    simp only [Engine.request, hva, bind_ok_eq, hg, pure_eq_ok]
  have hnot : Engine.notify sess { topic := topic, ntype := nt, data := nd }
      = if nt ∈ r.permissions.notifications.types
        then .ok { topic := topic, method := nt }
        else .error .unauthorizedNotificationType := by
    simp only [Engine.notify, hg, bind_ok_eq, pure_eq_ok]
  refine ⟨?_, ?_, fun hmem => by rw [hnot, if_pos hmem],
    fun hmem => by rw [hnot, if_neg hmem]⟩
  · rintro ⟨hm, hchain⟩
    have hva : Session.validateRequest sess
        (some { topic := topic, request := req, chainId := cid }) = .ok () := by
      rw [hval]
      cases cid with
      | none => rfl
      | some c =>
        have hc : ¬(c ≠ "" ∧ c ∉ r.permissions.blockchain.chains) := by
          rintro ⟨hne, hnotin⟩
          exact hnotin (hchain c rfl hne)
        exact if_neg hc
    rw [hreqA hva, if_pos hm]
  · intro hA
    cases cid with
    | none =>
      have hm : req.method ∉ r.permissions.jsonrpc.methods := by
        intro hm
        exact hA ⟨hm, fun c hc => nomatch hc⟩
      have hva : Session.validateRequest sess
          (some { topic := topic, request := req, chainId := none }) = .ok () := by
        rw [hval]
      exact ⟨.unauthorizedJsonRpcMethod, by rw [hreqA hva, if_neg hm], rfl⟩
    | some c =>
      by_cases hc : c ≠ "" ∧ c ∉ r.permissions.blockchain.chains
      · have hva : Session.validateRequest sess
            (some { topic := topic, request := req, chainId := some c })
            = .error .unauthorizedTargetChain := by
          rw [hval]
          exact if_pos hc
        refine ⟨.unauthorizedTargetChain, ?_, rfl⟩
        simp only [Engine.request, hva, bind_error_eq]
      · have hchainok : ∀ c', some c = some c' → c' ≠ ""
            → c' ∈ r.permissions.blockchain.chains := by
          rintro c' hc' hne
          injection hc' with h'
          subst h'
          by_contra hni
          exact hc ⟨hne, hni⟩
        have hm : req.method ∉ r.permissions.jsonrpc.methods :=
          fun hm => hA ⟨hm, hchainok⟩
        have hva : Session.validateRequest sess
            (some { topic := topic, request := req, chainId := some c }) = .ok () := by
          rw [hval]
          exact if_neg hc
        exact ⟨.unauthorizedJsonRpcMethod, by rw [hreqA hva, if_neg hm], rfl⟩

/-- Witness for C3 on `wSession`: method `"m1"` over chain `"c1"` and
notification type `"n1"` are authorized by `wSettled`'s permissions. -/
theorem request_notify_require_authorization_witness :
    (("m1" : String) ∈ wSettled.permissions.jsonrpc.methods
        ∧ (∀ c, (some "c1" : Option String) = some c → c ≠ ""
              → c ∈ wSettled.permissions.blockchain.chains) →
      Engine.request wSession
          { topic := "t", request := { method := "m1", params := "[]" }, chainId := some "c1" }
        = .ok { topic := "t", method := "m1" })
    ∧ (¬(("m1" : String) ∈ wSettled.permissions.jsonrpc.methods
        ∧ (∀ c, (some "c1" : Option String) = some c → c ≠ ""
              → c ∈ wSettled.permissions.blockchain.chains)) →
      ∃ e, Engine.request wSession
          { topic := "t", request := { method := "m1", params := "[]" }, chainId := some "c1" }
        = .error e ∧ e.isUnauthorizedTarget = true)
    ∧ (("n1" : String) ∈ wSettled.permissions.notifications.types →
      Engine.notify wSession { topic := "t", ntype := "n1", data := "d" }
        = .ok { topic := "t", method := "n1" })
    ∧ (("n1" : String) ∉ wSettled.permissions.notifications.types →
      Engine.notify wSession { topic := "t", ntype := "n1", data := "d" }
        = .error .unauthorizedNotificationType) :=
  request_notify_require_authorization wSession "t" wSettled
    { method := "m1", params := "[]" } (some "c1") "n1" "d" (by rfl)

/-- C7: session propose/respond validation fails with a missing-or-invalid
error when the params are absent or rejected by the schema validator, and
propose validation fails with `UnsupportedSignal` whenever well-formed params
carry a signal method other than the expected pairing signal method. -/
theorem validate_propose_respond (isValidP : ProposeParams → Bool)
    (isValidR : RespondParams → Bool) (p : ProposeParams) (q : RespondParams) :
    Session.validatePropose isValidP none = .error .missingOrInvalid
    ∧ (isValidP p = false →
        Session.validatePropose isValidP (some p) = .error .missingOrInvalid)
    ∧ (isValidP p = true → p.signal.method ≠ SESSION_SIGNAL_METHOD_PAIRING →
        Session.validatePropose isValidP (some p) = .error .unsupportedSignal)
    ∧ (isValidP p = true → p.signal.method = SESSION_SIGNAL_METHOD_PAIRING →
        Session.validatePropose isValidP (some p) = .ok ())
    ∧ Session.validateRespond isValidR none = .error .missingOrInvalid
    ∧ (isValidR q = false →
        Session.validateRespond isValidR (some q) = .error .missingOrInvalid)
    ∧ (isValidR q = true →
        Session.validateRespond isValidR (some q) = .ok ()) := by
  refine ⟨rfl, ?_, ?_, ?_, rfl, ?_, ?_⟩
  · intro h
    simp [Session.validatePropose, h]
  · intro h hne
    simp [Session.validatePropose, h, hne]
  · intro h heq
    simp [Session.validatePropose, h, heq, pure_eq_ok]
  · intro h
    simp [Session.validateRespond, h]
  · intro h
    simp [Session.validateRespond, h, pure_eq_ok]

/-- Witness for C7 with an always-accepting schema validator and a proposal
signalling via a pairing. -/
theorem validate_propose_respond_witness :
    Session.validatePropose (fun _ => true) none = .error .missingOrInvalid
    ∧ ((fun (_ : ProposeParams) => true) { signal := ⟨"pairing", "pt"⟩ } = false →
        Session.validatePropose (fun _ => true) (some { signal := ⟨"pairing", "pt"⟩ })
          = .error .missingOrInvalid)
    ∧ ((fun (_ : ProposeParams) => true) { signal := ⟨"pairing", "pt"⟩ } = true →
        (Signal.method ⟨"pairing", "pt"⟩ : String) ≠ SESSION_SIGNAL_METHOD_PAIRING →
        Session.validatePropose (fun _ => true) (some { signal := ⟨"pairing", "pt"⟩ })
          = .error .unsupportedSignal)
    ∧ ((fun (_ : ProposeParams) => true) { signal := ⟨"pairing", "pt"⟩ } = true →
        (Signal.method ⟨"pairing", "pt"⟩ : String) = SESSION_SIGNAL_METHOD_PAIRING →
        Session.validatePropose (fun _ => true) (some { signal := ⟨"pairing", "pt"⟩ })
          = .ok ())
    ∧ Session.validateRespond (fun _ => true) none = .error .missingOrInvalid
    ∧ ((fun (_ : RespondParams) => true) { approved := true } = false →
        Session.validateRespond (fun _ => true) (some { approved := true })
          = .error .missingOrInvalid)
    ∧ ((fun (_ : RespondParams) => true) { approved := true } = true →
        Session.validateRespond (fun _ => true) (some { approved := true })
          = .ok ()) :=
  validate_propose_respond (fun _ => true) (fun _ => true)
    { signal := ⟨"pairing", "pt"⟩ } { approved := true }

/-- C4: after `subscribe(topicA)` a transport disconnect empties the
subscriber's local state (`ids`, `topics`, `topicMap`); after reconnect every
previously-known topic is subscribed again in the state observed when the
`enabled` event fires, so `topics` again contains `topicA`, `topicMap` maps
`topicA` to at least one id, and every such id is fresh — different from the
pre-disconnect id. -/
theorem subscriber_reconnect_resubscribes (topicA : String) :
    (Subscriber.onDisconnect (Subscriber.subscribe Subscriber.initial topicA).2).ids = []
    ∧ (Subscriber.onDisconnect (Subscriber.subscribe Subscriber.initial topicA).2).topics = []
    ∧ Subscriber.tmGet (Subscriber.onDisconnect
        (Subscriber.subscribe Subscriber.initial topicA).2).topicMap topicA = []
    ∧ topicA ∈ (Subscriber.onReconnect (Subscriber.onDisconnect
        (Subscriber.subscribe Subscriber.initial topicA).2)).topics
    ∧ 1 ≤ (Subscriber.tmGet (Subscriber.onReconnect (Subscriber.onDisconnect
        (Subscriber.subscribe Subscriber.initial topicA).2)).topicMap topicA).length
    ∧ ∀ i ∈ Subscriber.tmGet (Subscriber.onReconnect (Subscriber.onDisconnect
        (Subscriber.subscribe Subscriber.initial topicA).2)).topicMap topicA,
        i ≠ (Subscriber.subscribe Subscriber.initial topicA).1 := by
  simp [Subscriber.initial, Subscriber.subscribe, Subscriber.onDisconnect,
    Subscriber.onReconnect, Subscriber.tmGet, Subscriber.tmSet]

/-- C5: `resolve(response)` fails with `RecordNotFound` when no record exists
for the response id and with `AlreadyResolved` when the record already has a
response attached; a successful resolve attaches the response and emits the
"response" event exactly once (the returned event batch is `[id]`), and a
second resolve with the same id fails, leaving the first attached response
unchanged. -/
theorem history_resolve_exactly_once (h : JsonRpcHistory)
    (resp resp2 missing : JsonRpcResponse) (r : JsonRpcRecord)
    (hid : resp2.id = resp.id) (hfound : h.lookup resp.id = some r)
    (hnone : r.response = none) (hmiss : h.lookup missing.id = none) :
    JsonRpcHistory.resolve h missing = .error .recordNotFound
    ∧ ∃ h', JsonRpcHistory.resolve h resp = .ok (h', [resp.id])
        ∧ h'.lookup resp.id = some { r with response := some resp.result }
        ∧ JsonRpcHistory.resolve h' resp2 = .error .alreadyResolved := by
  have hl : (JsonRpcHistory.mk (h.records.map (fun q =>
        if q.id == resp.id then { q with response := some resp.result } else q))).lookup
          resp.id
      = some { r with response := some resp.result } := by
    unfold JsonRpcHistory.lookup at hfound ⊢
    simp only [find?_recMap, hfound]
    rfl
  refine ⟨?_, ⟨_, ?_, hl, ?_⟩⟩
  · simp only [JsonRpcHistory.resolve, hmiss]
  · simp only [JsonRpcHistory.resolve, hfound, hnone]
  · simp only [JsonRpcHistory.resolve, hid, hl]

/-- Witness for C5 on a one-record ledger: id 1 is pending, id 2 unknown. -/
theorem history_resolve_exactly_once_witness :
    JsonRpcHistory.resolve
        ⟨[{ id := 1, topic := "t", method := "m", request := "q", response := none }]⟩
        { id := 2, result := "x" }
      = .error .recordNotFound
    ∧ ∃ h', JsonRpcHistory.resolve
          ⟨[{ id := 1, topic := "t", method := "m", request := "q", response := none }]⟩
          { id := 1, result := "ok" }
        = .ok (h', [1])
        ∧ h'.lookup 1
          = some { id := 1, topic := "t", method := "m", request := "q", response := some "ok" }
        ∧ JsonRpcHistory.resolve h' { id := 1, result := "second" }
          = .error .alreadyResolved :=
  history_resolve_exactly_once
    ⟨[{ id := 1, topic := "t", method := "m", request := "q", response := none }]⟩
    { id := 1, result := "ok" } { id := 1, result := "second" } { id := 2, result := "x" }
    { id := 1, topic := "t", method := "m", request := "q", response := none }
    (by rfl) (by rfl) (by rfl) (by rfl)
